import Mathlib

/-!
# Namespaced Redis facade (`redis/cmd.go`)

A shallow embedding of the wrapper methods of `RedisClient` and a verification
of its observable contract.

* The wrapped go-redis client is a parameter: a record `Client ν σ` of
  state-passing commands over an arbitrary server state `σ`, with an arbitrary
  type `ν` standing for the `interface{}` values handed to `Set` and `HSet`.
* A finished go-redis command is a `Cmd α`; `Cmd.Result` and `Cmd.Err` are the
  accessors used by the wrapper.
* `Client.traced` instruments any client with the list of calls it received.
* `kv` is a reference key-value server used for the relational properties.

The process-wide mutex `redisSetMu` only serialises callers; the embedding is
sequential and the lock has no counterpart.
-/

namespace redis

/-! ## Go values -/

/-- Non-nil values of the Go `error` interface, as far as the wrapper can tell
them apart: the go-redis sentinel `redis.Nil`, or anything else. -/
inductive GoErr where
  | Nil
  | other (msg : String)
  deriving DecidableEq, Repr

/-- The Go `error` type; `none` is the `nil` error. -/
abbrev error := Option GoErr

/-- The Go `time.Duration`, a signed count of nanoseconds. -/
abbrev Duration := Int

/-- The entries of a Go `map[string]string`. -/
abbrev Entries := List (String × String)

/-- The statement `mp[k] = sv` on the entries of a map. -/
def Entries.set (mp : Entries) (k sv : String) : Entries :=
  (k, sv) :: mp.filter (fun e => e.1 ≠ k)

/-- The expression `mp[k]` with its presence flag. -/
def Entries.get (mp : Entries) (k : String) : Option String :=
  (mp.find? (fun e => e.1 = k)).map Prod.snd

/-- A Go value of type `map[string]string`: `none` is the nil map, `some es`
an allocated map holding `es`. -/
abbrev GoMap := Option Entries

/-- The pairs visited by `for k, sv := range v`; a nil map yields none. -/
def GoMap.range : GoMap → Entries
  | none => []
  | some es => es

/-- The lookup `v[k]` on a possibly nil map. -/
def GoMap.get (v : GoMap) (k : String) : Option String :=
  Entries.get v.range k

/-- The zero value of a Go type. -/
class GoZero (α : Type) where
  zero : α

instance : GoZero String := ⟨""⟩
instance : GoZero Bool := ⟨false⟩
instance : GoZero Int := ⟨0⟩
instance : GoZero GoMap := ⟨none⟩

/-! ## The wrapped go-redis client -/

/-- A finished go-redis command (`*StringCmd`, `*IntCmd`, ...). A reply that
was read successfully fills `val`; a failed command (including the not-found
reply, reported as `redis.Nil`) only records the error and its `val` keeps the
zero value of its type. -/
inductive Cmd (α : Type) where
  | ok (val : α)
  | failed (err : GoErr)
  deriving DecidableEq, Repr

/-- The accessor `cmd.Err()`. -/
def Cmd.Err {α : Type} : Cmd α → error
  | .ok _ => none
  | .failed e => some e

/-- The accessor `cmd.Val()`. -/
def Cmd.Val {α : Type} [GoZero α] : Cmd α → α
  | .ok v => v
  | .failed _ => GoZero.zero

/-- The accessor `cmd.Result()`, the pair `(val, err)`. -/
def Cmd.Result {α : Type} [GoZero α] (cmd : Cmd α) : α × error :=
  (cmd.Val, cmd.Err)

/-- The go-redis `redis.Message` received on a subscription. -/
structure RedisMessage where
  Channel : String
  Pattern : String
  Payload : String
  deriving DecidableEq, Repr

/-- The go-redis `*redis.PubSub` handle: `Channel` lists the messages its
delivery channel yields before it is closed. -/
structure PubSub where
  Channel : List RedisMessage
  deriving DecidableEq, Repr

/-- The methods of the go-redis client used by the wrapper, as state-passing
functions over the server state `σ`. -/
structure Client (ν σ : Type) where
  Expire : String → Duration → σ → Cmd Bool × σ
  Get : String → σ → Cmd String × σ
  Set : String → ν → Duration → σ → Cmd String × σ
  Del : List String → σ → Cmd Int × σ
  HGet : String → String → σ → Cmd String × σ
  HGetAll : String → σ → Cmd GoMap × σ
  HSet : String → String → ν → σ → Cmd Bool × σ
  HDel : String → List String → σ → Cmd Int × σ
  HLen : String → σ → Cmd Int × σ
  Subscribe : String → σ → PubSub × σ
  Close : PubSub → σ → σ
  Publish : String → String → σ → Cmd Int × σ

/-! ## The wrapper -/

/-- The wrapper `RedisClient`: the shared client handle and the key namespace. -/
structure RedisClient (ν σ : Type) where
  Client : Client ν σ
  Prefix : String

/-- The pub/sub message handed to a `Sub` handler. -/
structure Message where
  Channel : String
  Pattern : String
  Payload : String
  deriving DecidableEq, Repr

variable {ν σ τ : Type}

/-- `func (r *RedisClient) Expire(key, expiration) (bool, error)`. -/
def RedisClient.Expire (r : RedisClient ν σ) (key : String) (expiration : Duration)
    (s : σ) : (Bool × error) × σ :=
  let c := r.Client.Expire (r.Prefix ++ key) expiration s
  (c.1.Result, c.2)

/-- `func (r *RedisClient) Get(key) (string, error)`. -/
def RedisClient.Get (r : RedisClient ν σ) (key : String) (s : σ) : (String × error) × σ :=
  let c := r.Client.Get (r.Prefix ++ key) s
  let (v, err) := c.1.Result
  let err := if err = some GoErr.Nil then none else err
  ((v, err), c.2)

/-- `func (r *RedisClient) Set(key, value, expiration ...time.Duration) error`.
`RedisTTL` is the package-level default declared outside this file. -/
def RedisClient.Set (RedisTTL : Duration) (r : RedisClient ν σ) (key : String) (value : ν)
    (expiration : List Duration) (s : σ) : error × σ :=
  let expire := RedisTTL
  let expire := if expiration.length > 0 then expiration.getD 0 expire else expire
  let cmd := r.Client.Set (r.Prefix ++ key) value expire s
  (cmd.1.Err, cmd.2)

/-- `func (r *RedisClient) Del(keys ...string) error`. -/
def RedisClient.Del (r : RedisClient ν σ) (keys : List String) (s : σ) : error × σ :=
  let ks := keys.map (fun k => r.Prefix ++ k)
  let cmd := r.Client.Del ks s
  (cmd.1.Err, cmd.2)

/-- `func (r *RedisClient) HGet(key, field) (string, error)`. -/
def RedisClient.HGet (r : RedisClient ν σ) (key field : String) (s : σ) :
    (String × error) × σ :=
  let cmd := r.Client.HGet (r.Prefix ++ key) field s
  let (v, err) := cmd.1.Result
  if err = some GoErr.Nil then (("", none), cmd.2) else ((v, err), cmd.2)

/-- `func (r *RedisClient) HGetAll(key) (map[string]string, error)`. -/
def RedisClient.HGetAll (r : RedisClient ν σ) (key : String) (s : σ) : (GoMap × error) × σ :=
  let cmd := r.Client.HGetAll (r.Prefix ++ key) s
  let (v, err) := cmd.1.Result
  let mp : Entries := []
  if err = some GoErr.Nil then ((some mp, none), cmd.2)
  else
    let mp := (GoMap.range v).foldl (fun mp e => Entries.set mp e.1 e.2) mp
    ((some mp, err), cmd.2)

/-- `func (r *RedisClient) HSet(key, field, val, expiration ...time.Duration) error`. -/
def RedisClient.HSet (RedisTTL : Duration) (r : RedisClient ν σ) (key field : String) (val : ν)
    (expiration : List Duration) (s : σ) : error × σ :=
  let cmd := r.Client.HSet (r.Prefix ++ key) field val s
  let expire := RedisTTL
  let expire := if expiration.length > 0 then expiration.getD 0 expire else expire
  let e := r.Expire key expire cmd.2
  (cmd.1.Err, e.2)

/-- `func (r *RedisClient) HDel(key, field ...string) error`. -/
def RedisClient.HDel (r : RedisClient ν σ) (key : String) (field : List String) (s : σ) :
    error × σ :=
  let k := key
  let cmd := r.Client.HDel (r.Prefix ++ k) field s
  let err := cmd.1.Err
  if err ≠ none then (err, cmd.2)
  else
    let c := r.Client.HLen (r.Prefix ++ k) cmd.2
    let (length, err) := c.1.Result
    if err ≠ none then (err, c.2)
    else if length = 0 then
      let d := r.Del [k] c.2
      if d.1 ≠ none then (d.1, d.2) else (none, d.2)
    else (none, c.2)

/-- `func (r *RedisClient) Sub(channel, handler func(*Message))`; the handler
acts on a state `τ` of its own. -/
def RedisClient.Sub (r : RedisClient ν σ) (channel : String) (handler : Message → τ → τ)
    (s : σ) (t : τ) : σ × τ :=
  let pb := r.Client.Subscribe channel s
  let ch := pb.1.Channel
  let t := ch.foldl (fun t msg => handler ⟨msg.Channel, msg.Pattern, msg.Payload⟩ t) t
  (r.Client.Close pb.1 pb.2, t)

/-- `func (r *RedisClient) Pub(channel, msg) error`. -/
def RedisClient.Pub (r : RedisClient ν σ) (channel msg : String) (s : σ) : error × σ :=
  let cmd := r.Client.Publish channel msg s
  (cmd.1.Result.2, cmd.2)

/-! ## Instrumentation: the calls a client receives -/

/-- One call on the wrapped client, with its arguments. -/
inductive Call (ν : Type) where
  | Expire (key : String) (expiration : Duration)
  | Get (key : String)
  | Set (key : String) (value : ν) (expiration : Duration)
  | Del (keys : List String)
  | HGet (key field : String)
  | HGetAll (key : String)
  | HSet (key field : String) (value : ν)
  | HDel (key : String) (fields : List String)
  | HLen (key : String)
  | Subscribe (channel : String)
  | Close
  | Publish (channel message : String)
  deriving DecidableEq, Repr

/-- The client `c` instrumented with a log: every call is appended to the log
and then answered by `c`. -/
def Client.traced (c : Client ν σ) : Client ν (σ × List (Call ν)) where
  Expire key d s := ((c.Expire key d s.1).1, (c.Expire key d s.1).2, s.2 ++ [.Expire key d])
  Get key s := ((c.Get key s.1).1, (c.Get key s.1).2, s.2 ++ [.Get key])
  Set key v d s := ((c.Set key v d s.1).1, (c.Set key v d s.1).2, s.2 ++ [.Set key v d])
  Del keys s := ((c.Del keys s.1).1, (c.Del keys s.1).2, s.2 ++ [.Del keys])
  HGet key f s := ((c.HGet key f s.1).1, (c.HGet key f s.1).2, s.2 ++ [.HGet key f])
  HGetAll key s := ((c.HGetAll key s.1).1, (c.HGetAll key s.1).2, s.2 ++ [.HGetAll key])
  HSet key f v s := ((c.HSet key f v s.1).1, (c.HSet key f v s.1).2, s.2 ++ [.HSet key f v])
  HDel key fs s := ((c.HDel key fs s.1).1, (c.HDel key fs s.1).2, s.2 ++ [.HDel key fs])
  HLen key s := ((c.HLen key s.1).1, (c.HLen key s.1).2, s.2 ++ [.HLen key])
  Subscribe ch s := ((c.Subscribe ch s.1).1, (c.Subscribe ch s.1).2, s.2 ++ [.Subscribe ch])
  Close pb s := (c.Close pb s.1, s.2 ++ [.Close])
  Publish ch m s := ((c.Publish ch m s.1).1, (c.Publish ch m s.1).2, s.2 ++ [.Publish ch m])

/-- The wrapper over the instrumented client, same namespace. -/
def RedisClient.traced (r : RedisClient ν σ) : RedisClient ν (σ × List (Call ν)) :=
  ⟨r.Client.traced, r.Prefix⟩

/-! ## A reference key-value server -/

/-- What a key of the reference server holds. -/
inductive Entry where
  | str (v : String)
  | hash (fields : Entries)
  deriving DecidableEq, Repr

/-- A stored value with its time-to-live, if one is set. -/
structure Slot where
  val : Entry
  ttl : Option Duration
  deriving DecidableEq, Repr

/-- The keyspace of the reference server: physical keys with their slots. -/
abbrev Store := List (String × Slot)

/-- The slot stored under `key`, if any. -/
def Store.get (s : Store) (key : String) : Option Slot :=
  (s.find? (fun e => e.1 = key)).map Prod.snd

/-- The keyspace with `key` removed. -/
def Store.del (s : Store) (key : String) : Store :=
  s.filter (fun e => e.1 ≠ key)

/-- The keyspace with `key` bound to `slot`. -/
def Store.set (s : Store) (key : String) (slot : Slot) : Store :=
  (key, slot) :: s.del key

/-- Removal of a list of keys, counting those that existed. -/
def Store.delKeys : List String → Store → Int × Store
  | [], s => (0, s)
  | k :: ks, s =>
    let r := Store.delKeys ks (s.del k)
    (if (s.get k).isSome then r.1 + 1 else r.1, r.2)

/-- The fields of the hash stored under `key` (none when the key is absent or
holds a string). -/
def Store.fields (s : Store) (key : String) : Entries :=
  match s.get key with
  | some ⟨.hash es, _⟩ => es
  | _ => []

/-- The reply to a command applied to a key of the wrong kind. -/
def wrongType : GoErr := .other "WRONGTYPE Operation against a key holding the wrong kind of value"

/-- The reply to a command sent without its key or field arguments. -/
def wrongArity : GoErr := .other "ERR wrong number of arguments"

/-- The reference server as a client of string values. No time passes, so a
positive time-to-live is recorded and never elapses; `Expire` with a
non-positive duration removes the key at once. With `gc` set the server itself
drops a hash when its last field is deleted, as Redis does; without it the
empty hash stays. -/
def kv (gc : Bool) : Client String Store where
  Expire key d s :=
    match s.get key with
    | none => (.ok false, s)
    | some slot => if d ≤ 0 then (.ok true, s.del key) else (.ok true, s.set key ⟨slot.val, some d⟩)
  Get key s :=
    match s.get key with
    | none => (.failed .Nil, s)
    | some ⟨.str v, _⟩ => (.ok v, s)
    | some ⟨.hash _, _⟩ => (.failed wrongType, s)
  Set key v d s := (.ok "OK", s.set key ⟨.str v, if d > 0 then some d else none⟩)
  Del keys s :=
    if keys = [] then (.failed wrongArity, s)
    else (.ok (Store.delKeys keys s).1, (Store.delKeys keys s).2)
  HGet key f s :=
    match s.get key with
    | none => (.failed .Nil, s)
    | some ⟨.str _, _⟩ => (.failed wrongType, s)
    | some ⟨.hash es, _⟩ =>
      match es.get f with
      | none => (.failed .Nil, s)
      | some v => (.ok v, s)
  HGetAll key s :=
    match s.get key with
    | none => (.ok (some []), s)
    | some ⟨.str _, _⟩ => (.failed wrongType, s)
    | some ⟨.hash es, _⟩ => (.ok (some es), s)
  HSet key f v s :=
    match s.get key with
    | none => (.ok true, s.set key ⟨.hash [(f, v)], none⟩)
    | some ⟨.str _, _⟩ => (.failed wrongType, s)
    | some ⟨.hash es, ttl⟩ => (.ok (es.get f).isNone, s.set key ⟨.hash (es.set f v), ttl⟩)
  HDel key fs s :=
    if fs = [] then (.failed wrongArity, s)
    else
      match s.get key with
      | none => (.ok 0, s)
      | some ⟨.str _, _⟩ => (.failed wrongType, s)
      | some ⟨.hash es, ttl⟩ =>
        let rest := es.filter (fun e => e.1 ∉ fs)
        let n : Int := (es.length : Int) - (rest.length : Int)
        if gc ∧ rest = [] then (.ok n, s.del key) else (.ok n, s.set key ⟨.hash rest, ttl⟩)
  HLen key s :=
    match s.get key with
    | none => (.ok 0, s)
    | some ⟨.str _, _⟩ => (.failed wrongType, s)
    | some ⟨.hash es, _⟩ => (.ok (es.length : Int), s)
  Subscribe _ s := (⟨[]⟩, s)
  Close _ s := s
  Publish _ _ s := (.ok 0, s)

/-- A facade with namespace `p` over the reference server. -/
def kvFacade (gc : Bool) (p : String) : RedisClient String Store := ⟨kv gc, p⟩

/-- The replies of a scripted client, one per command. -/
structure Replies where
  Expire : Cmd Bool := .ok true
  Get : Cmd String := .ok ""
  Set : Cmd String := .ok "OK"
  Del : Cmd Int := .ok 0
  HGet : Cmd String := .ok ""
  HGetAll : Cmd GoMap := .ok (some [])
  HSet : Cmd Bool := .ok true
  HDel : Cmd Int := .ok 0
  HLen : Cmd Int := .ok 0
  Subscribe : List RedisMessage := []
  Publish : Cmd Int := .ok 0

/-- A client without state that answers every command with the scripted reply. -/
def fixed (a : Replies) : Client String Unit where
  Expire _ _ s := (a.Expire, s)
  Get _ s := (a.Get, s)
  Set _ _ _ s := (a.Set, s)
  Del _ s := (a.Del, s)
  HGet _ _ s := (a.HGet, s)
  HGetAll _ s := (a.HGetAll, s)
  HSet _ _ _ s := (a.HSet, s)
  HDel _ _ s := (a.HDel, s)
  HLen _ s := (a.HLen, s)
  Subscribe _ s := (⟨a.Subscribe⟩, s)
  Close _ s := s
  Publish _ _ s := (a.Publish, s)

/-- The message handed to the handler for a delivered `redis.Message`. -/
def toMessage (msg : RedisMessage) : Message := ⟨msg.Channel, msg.Pattern, msg.Payload⟩

/-- A handler that appends every message it is invoked with to its state. -/
def record (m : Message) (seen : List Message) : List Message := seen ++ [m]

/-! ## Key prefixing -/

/-- C1: every key-addressed operation hands the wrapped client only keys of
the form `Prefix ++ key`. The calls logged by an instrumented client are, for
each operation, exactly the listed ones: one call on the prefixed key for
Expire, Get, Set, HGet and HGetAll; one `Del` carrying the prefixed keys in
the order given; the hash write and the `Expire` on the same prefixed key for
HSet; and for HDel the field delete, then possibly the `HLen` check, then
possibly the cleanup `Del`, all on the prefixed key. -/
theorem calls_use_prefixed_keys (r : RedisClient ν σ) (RedisTTL d : Duration) (key field : String)
    (keys fields : List String) (value : ν) (ds : List Duration) (s : σ) (log : List (Call ν)) :
    (r.traced.Expire key d (s, log)).2.2 = log ++ [.Expire (r.Prefix ++ key) d] ∧
    (r.traced.Get key (s, log)).2.2 = log ++ [.Get (r.Prefix ++ key)] ∧
    (r.traced.Set RedisTTL key value ds (s, log)).2.2
      = log ++ [.Set (r.Prefix ++ key) value (ds.headD RedisTTL)] ∧
    (r.traced.Del keys (s, log)).2.2 = log ++ [.Del (keys.map (fun k => r.Prefix ++ k))] ∧
    (r.traced.HGet key field (s, log)).2.2 = log ++ [.HGet (r.Prefix ++ key) field] ∧
    (r.traced.HGetAll key (s, log)).2.2 = log ++ [.HGetAll (r.Prefix ++ key)] ∧
    (r.traced.HSet RedisTTL key field value ds (s, log)).2.2
      = log ++ [.HSet (r.Prefix ++ key) field value, .Expire (r.Prefix ++ key) (ds.headD RedisTTL)] ∧
    ((r.traced.HDel key fields (s, log)).2.2 = log ++ [.HDel (r.Prefix ++ key) fields] ∨
     (r.traced.HDel key fields (s, log)).2.2
        = log ++ [.HDel (r.Prefix ++ key) fields, .HLen (r.Prefix ++ key)] ∨
     (r.traced.HDel key fields (s, log)).2.2
        = log ++ [.HDel (r.Prefix ++ key) fields, .HLen (r.Prefix ++ key),
                  .Del [r.Prefix ++ key]]) := by
  refine ⟨?_, ?_, ?_, ?_, ?_, ?_, ?_, ?_⟩
  · simp [RedisClient.Expire, RedisClient.traced, Client.traced]
  · simp [RedisClient.Get, RedisClient.traced, Client.traced]
  · cases ds <;> simp [RedisClient.Set, RedisClient.traced, Client.traced]
  · simp [RedisClient.Del, RedisClient.traced, Client.traced]
  · simp only [RedisClient.HGet, RedisClient.traced, Client.traced]
    split <;> rfl
  · simp only [RedisClient.HGetAll, RedisClient.traced, Client.traced]
    split <;> rfl
  · cases ds <;> simp [RedisClient.HSet, RedisClient.Expire, RedisClient.traced, Client.traced]
  · simp only [RedisClient.HDel, RedisClient.Del, RedisClient.traced, Client.traced]
    split
    · exact Or.inl rfl
    · split
      · exact Or.inr (Or.inl (by simp))
      · split
        · split <;> exact Or.inr (Or.inr (by simp))
        · exact Or.inr (Or.inl (by simp))

/-! ## Not-found normalisation -/

/-- C3: when the wrapped client's `Get` on the prefixed key reports
`redis.Nil`, `Get` returns the empty string with a nil error; and whatever the
client replies, the error `Get` returns is never `redis.Nil` and the string it
returns is the value held by the client's command. -/
theorem Get_not_found (r : RedisClient ν σ) (key : String) (s : σ)
    (h : (r.Client.Get (r.Prefix ++ key) s).1 = .failed .Nil) :
    (r.Get key s).1 = ("", none) ∧
    ∀ (key' : String) (s' : σ), (r.Get key' s').1.2 ≠ some GoErr.Nil ∧
      (r.Get key' s').1.1 = (r.Client.Get (r.Prefix ++ key') s').1.Val := by
  constructor
  · simp [RedisClient.Get, h, Cmd.Result, Cmd.Val, Cmd.Err, GoZero.zero]
  · intro key' s'
    refine ⟨?_, rfl⟩
    simp only [RedisClient.Get, Cmd.Result]
    split <;> simp_all

/-- C3, at a concrete input: over the empty reference server the key is absent,
the server answers `redis.Nil`, and `Get` returns `("", nil)`. -/
theorem Get_not_found_witness :
    ((kv true).Get ("app:" ++ "user") []).1 = .failed .Nil ∧
    ((kvFacade true "app:").Get "user" []).1 = ("", none) :=
  ⟨rfl, (Get_not_found (kvFacade true "app:") "user" [] rfl).1⟩

/-! ## Set and HSet -/

/-- C5: `Set` issues exactly one client `Set`, on the prefixed key, with the
value unchanged and with the expiration `RedisTTL` when no duration is
supplied and the first supplied duration otherwise (whatever its sign); it
returns that command's error and leaves the server as that command left it. -/
theorem Set_one_call (RedisTTL : Duration) (r : RedisClient ν σ) (key : String) (value : ν)
    (expiration : List Duration) (s : σ) (log : List (Call ν)) :
    (r.traced.Set RedisTTL key value expiration (s, log)).2.2
      = log ++ [.Set (r.Prefix ++ key) value (expiration.headD RedisTTL)] ∧
    r.Set RedisTTL key value expiration s
      = ((r.Client.Set (r.Prefix ++ key) value (expiration.headD RedisTTL) s).1.Err,
         (r.Client.Set (r.Prefix ++ key) value (expiration.headD RedisTTL) s).2) ∧
    (r.traced.Set RedisTTL key value [] (s, log)).2.2
      = log ++ [.Set (r.Prefix ++ key) value RedisTTL] ∧
    ∀ (d : Duration) (rest : List Duration),
      (r.traced.Set RedisTTL key value (d :: rest) (s, log)).2.2
        = log ++ [.Set (r.Prefix ++ key) value d] := by
  refine ⟨?_, ?_, ?_, ?_⟩
  · cases expiration <;> simp [RedisClient.Set, RedisClient.traced, Client.traced]
  · cases expiration <;> simp [RedisClient.Set]
  · simp [RedisClient.Set, RedisClient.traced, Client.traced]
  · intro d rest
    simp [RedisClient.Set, RedisClient.traced, Client.traced]

/-- C6: `HSet` issues the hash-field write on the prefixed key and then exactly
one `Expire` on the same prefixed key, with `RedisTTL` or the first supplied
duration, whatever the write replied; the error it returns is the write's
error, so a successful write followed by a failed `Expire` returns nil. -/
theorem HSet_write_then_expire (RedisTTL : Duration) (r : RedisClient ν σ) (key field : String)
    (val : ν) (expiration : List Duration) (s : σ) (log : List (Call ν)) :
    (r.traced.HSet RedisTTL key field val expiration (s, log)).2.2
      = log ++ [.HSet (r.Prefix ++ key) field val,
                .Expire (r.Prefix ++ key) (expiration.headD RedisTTL)] ∧
    (r.HSet RedisTTL key field val expiration s).1
      = (r.Client.HSet (r.Prefix ++ key) field val s).1.Err ∧
    (r.HSet RedisTTL key field val expiration s).2
      = (r.Client.Expire (r.Prefix ++ key) (expiration.headD RedisTTL)
          (r.Client.HSet (r.Prefix ++ key) field val s).2).2 ∧
    ∀ (b : Bool) (e : GoErr), (r.Client.HSet (r.Prefix ++ key) field val s).1 = .ok b →
      (r.Client.Expire (r.Prefix ++ key) (expiration.headD RedisTTL)
          (r.Client.HSet (r.Prefix ++ key) field val s).2).1 = .failed e →
      (r.HSet RedisTTL key field val expiration s).1 = none := by
  refine ⟨?_, ?_, ?_, ?_⟩
  · cases expiration <;>
      simp [RedisClient.HSet, RedisClient.Expire, RedisClient.traced, Client.traced]
  · simp [RedisClient.HSet]
  · cases expiration <;> simp [RedisClient.HSet, RedisClient.Expire]
  · intro b e hw _
    simp [RedisClient.HSet, hw, Cmd.Err]

/-- C6, at a concrete input: the write succeeds, the `Expire` fails, and `HSet`
still returns nil after issuing both calls on the prefixed key. -/
theorem HSet_write_then_expire_witness :
    (⟨fixed { Expire := .failed (.other "timeout") }, "app:"⟩ : RedisClient String Unit).HSet
        86400 "h" "f" "v" [] () = (none, ()) ∧
    ((⟨fixed { Expire := .failed (.other "timeout") }, "app:"⟩ :
        RedisClient String Unit).traced.HSet 86400 "h" "f" "v" [15, 20] ((), [])).2.2
      = [.HSet "app:h" "f" "v", .Expire "app:h" 15] :=
  ⟨Prod.ext
      ((HSet_write_then_expire 86400 ⟨fixed { Expire := .failed (.other "timeout") }, "app:"⟩
        "h" "f" "v" [] () []).2.2.2 true (.other "timeout") rfl rfl) rfl,
    (HSet_write_then_expire 86400 ⟨fixed { Expire := .failed (.other "timeout") }, "app:"⟩
        "h" "f" "v" [15, 20] () []).1⟩

/-! ## HDel: error propagation -/

/-- C7: `HDel` is fail-fast. With `s₁` the server after the field delete and
`s₂` the server after the length check: a failed field delete is returned and
nothing else is issued; a failed length check is returned and no cleanup `Del`
is issued; with both successful, a zero length issues the cleanup `Del` and
returns its error, a non-zero length returns nil without a `Del`. Hence `HDel`
returns nil exactly when every step it issued succeeded. -/
theorem HDel_fail_fast (r : RedisClient ν σ) (key : String) (field : List String) (s : σ)
    (log : List (Call ν)) :
    (∀ e, (r.Client.HDel (r.Prefix ++ key) field s).1 = .failed e →
      r.traced.HDel key field (s, log)
        = (some e, (r.Client.HDel (r.Prefix ++ key) field s).2,
            log ++ [.HDel (r.Prefix ++ key) field])) ∧
    (∀ n e, (r.Client.HDel (r.Prefix ++ key) field s).1 = .ok n →
      (r.Client.HLen (r.Prefix ++ key) (r.Client.HDel (r.Prefix ++ key) field s).2).1
        = .failed e →
      r.traced.HDel key field (s, log)
        = (some e,
            (r.Client.HLen (r.Prefix ++ key) (r.Client.HDel (r.Prefix ++ key) field s).2).2,
            log ++ [.HDel (r.Prefix ++ key) field, .HLen (r.Prefix ++ key)])) ∧
    (∀ n, (r.Client.HDel (r.Prefix ++ key) field s).1 = .ok n →
      (r.Client.HLen (r.Prefix ++ key) (r.Client.HDel (r.Prefix ++ key) field s).2).1
        = .ok 0 →
      r.traced.HDel key field (s, log)
        = ((r.Client.Del [r.Prefix ++ key]
              (r.Client.HLen (r.Prefix ++ key)
                (r.Client.HDel (r.Prefix ++ key) field s).2).2).1.Err,
            (r.Client.Del [r.Prefix ++ key]
              (r.Client.HLen (r.Prefix ++ key)
                (r.Client.HDel (r.Prefix ++ key) field s).2).2).2,
            log ++ [.HDel (r.Prefix ++ key) field, .HLen (r.Prefix ++ key),
                    .Del [r.Prefix ++ key]])) ∧
    (∀ n m, (r.Client.HDel (r.Prefix ++ key) field s).1 = .ok n →
      (r.Client.HLen (r.Prefix ++ key) (r.Client.HDel (r.Prefix ++ key) field s).2).1
        = .ok m → m ≠ 0 →
      r.traced.HDel key field (s, log)
        = (none,
            (r.Client.HLen (r.Prefix ++ key) (r.Client.HDel (r.Prefix ++ key) field s).2).2,
            log ++ [.HDel (r.Prefix ++ key) field, .HLen (r.Prefix ++ key)])) ∧
    ((r.HDel key field s).1 = none ↔
      (r.Client.HDel (r.Prefix ++ key) field s).1.Err = none ∧
      (r.Client.HLen (r.Prefix ++ key) (r.Client.HDel (r.Prefix ++ key) field s).2).1.Err
        = none ∧
      ((r.Client.HLen (r.Prefix ++ key) (r.Client.HDel (r.Prefix ++ key) field s).2).1.Val
          = 0 →
        (r.Client.Del [r.Prefix ++ key]
          (r.Client.HLen (r.Prefix ++ key)
            (r.Client.HDel (r.Prefix ++ key) field s).2).2).1.Err = none)) := by
  refine ⟨?_, ?_, ?_, ?_, ?_⟩
  · intro e h
    simp [RedisClient.HDel, RedisClient.traced, Client.traced, h, Cmd.Err]
  · intro n e h h'
    simp [RedisClient.HDel, RedisClient.traced, Client.traced, h, h', Cmd.Err, Cmd.Result]
  · intro n h h'
    simp [RedisClient.HDel, RedisClient.Del, RedisClient.traced, Client.traced, h, h', Cmd.Err,
      Cmd.Result, Cmd.Val]
    intro hd
    exact hd.symm
  · intro n m h h' hm
    simp [RedisClient.HDel, RedisClient.traced, Client.traced, h, h', hm, Cmd.Err, Cmd.Result,
      Cmd.Val]
  · simp only [RedisClient.HDel, RedisClient.Del, Cmd.Result, List.map]
    split
    · simp_all
    · split
      · simp_all
      · split
        · split <;> simp_all
        · simp_all

/-- C7, at a concrete input: the field delete succeeds and the length check
fails with a timeout; `HDel` returns the timeout after two calls and no `Del`. -/
theorem HDel_fail_fast_witness :
    (⟨fixed { HLen := .failed (.other "timeout") }, "app:"⟩ :
        RedisClient String Unit).traced.HDel "h" ["f"] ((), [])
      = (some (.other "timeout"), (), [.HDel "app:h" ["f"], .HLen "app:h"]) :=
  (HDel_fail_fast ⟨fixed { HLen := .failed (.other "timeout") }, "app:"⟩ "h" ["f"] ()
    []).2.1 0 (.other "timeout") rfl rfl

/-! ## Publish and subscribe -/

/-- Running a handler over the delivered messages is a fold over their
`Message` forms. -/
theorem foldl_handler {τ : Type} (l : List RedisMessage) (h : Message → τ → τ) (t : τ) :
    l.foldl (fun t msg => h ⟨msg.Channel, msg.Pattern, msg.Payload⟩ t) t
      = (l.map toMessage).foldl (fun t m => h m t) t := by
  rw [List.foldl_map]
  rfl

/-- The recording handler appends the messages it sees, in order. -/
theorem foldl_record (l acc : List Message) :
    l.foldl (fun t m => record m t) acc = acc ++ l := by
  induction l generalizing acc with
  | nil => simp
  | cons m l ih =>
    rw [List.foldl_cons, ih]
    simp [record]

/-- C10: `Pub` and `Sub` hand the channel name to the client as given, without
the key namespace. For the messages delivered on the subscription before it is
closed, `Sub` runs the handler once per message, in delivery order, on a
`Message` with the same channel, pattern and payload, then closes the
subscription and returns. -/
theorem Pub_Sub_channel_and_delivery (r : RedisClient ν σ) (channel msg : String)
    (handler : Message → τ → τ) (s : σ) (t : τ) (log : List (Call ν)) :
    (r.traced.Pub channel msg (s, log)).2.2 = log ++ [.Publish channel msg] ∧
    (r.Pub channel msg s).1 = (r.Client.Publish channel msg s).1.Err ∧
    (r.traced.Sub channel handler (s, log) t).1.2 = log ++ [.Subscribe channel, .Close] ∧
    (r.Sub channel handler s t).2
      = ((r.Client.Subscribe channel s).1.Channel.map toMessage).foldl
          (fun t m => handler m t) t ∧
    (r.Sub channel record s []).2 = (r.Client.Subscribe channel s).1.Channel.map toMessage ∧
    (∀ i (h : i < (r.Client.Subscribe channel s).1.Channel.length),
      ((r.Sub channel record s []).2.get? i).map
          (fun m => (m.Channel, m.Pattern, m.Payload))
        = some (((r.Client.Subscribe channel s).1.Channel.get ⟨i, h⟩).Channel,
                ((r.Client.Subscribe channel s).1.Channel.get ⟨i, h⟩).Pattern,
                ((r.Client.Subscribe channel s).1.Channel.get ⟨i, h⟩).Payload)) := by
  have hsub : (r.Sub channel record s []).2
      = (r.Client.Subscribe channel s).1.Channel.map toMessage := by
    exact (foldl_handler _ record []).trans (by rw [foldl_record]; simp)
  refine ⟨?_, ?_, ?_, ?_, hsub, ?_⟩
  · simp [RedisClient.Pub, RedisClient.traced, Client.traced]
  · simp [RedisClient.Pub, Cmd.Result]
  · simp [RedisClient.Sub, RedisClient.traced, Client.traced]
  · exact foldl_handler _ handler t
  · intro i h
    rw [hsub]
    simp [toMessage, List.getElem?_eq_getElem h]

/-- C10, at a concrete input: two messages delivered on `chat` reach the
handler once each, in order, and the channel name reaches the client as is. -/
theorem Pub_Sub_channel_and_delivery_witness :
    ((⟨fixed { Subscribe := [⟨"chat", "", "hello"⟩, ⟨"chat", "", "bye"⟩] }, "app:"⟩ :
        RedisClient String Unit).Sub "chat" record () []).2
      = [⟨"chat", "", "hello"⟩, ⟨"chat", "", "bye"⟩] ∧
    ((⟨fixed { Subscribe := [⟨"chat", "", "hello"⟩, ⟨"chat", "", "bye"⟩] }, "app:"⟩ :
        RedisClient String Unit).traced.Sub "chat" record ((), []) []).1.2
      = [.Subscribe "chat", .Close] ∧
    ((⟨fixed { Subscribe := [⟨"chat", "", "hello"⟩, ⟨"chat", "", "bye"⟩] }, "app:"⟩ :
        RedisClient String Unit).traced.Pub "chat" "hello" ((), [])).2.2
      = [.Publish "chat" "hello"] :=
  ⟨(Pub_Sub_channel_and_delivery
      ⟨fixed { Subscribe := [⟨"chat", "", "hello"⟩, ⟨"chat", "", "bye"⟩] }, "app:"⟩
      "chat" "hello" record () [] []).2.2.2.2.1,
    (Pub_Sub_channel_and_delivery
      ⟨fixed { Subscribe := [⟨"chat", "", "hello"⟩, ⟨"chat", "", "bye"⟩] }, "app:"⟩
      "chat" "hello" record () [] []).2.2.1,
    (Pub_Sub_channel_and_delivery
      ⟨fixed { Subscribe := [⟨"chat", "", "hello"⟩, ⟨"chat", "", "bye"⟩] }, "app:"⟩
      "chat" "hello" record () [] []).1⟩

/-! ## Hash reads -/

/-- The keys of a Go map are pairwise distinct. -/
def Entries.WF (mp : Entries) : Prop := (mp.map Prod.fst).Nodup

instance (mp : Entries) : Decidable mp.WF := by
  unfold Entries.WF
  infer_instance

/-- In a map with distinct keys, `mp[k]` is `v` exactly when `(k, v)` is an entry. -/
theorem Entries.get_eq_some_iff (mp : Entries) (h : mp.WF) (k v : String) :
    mp.get k = some v ↔ (k, v) ∈ mp := by
  induction mp with
  | nil => simp [Entries.get]
  | cons e t ih =>
    have ht : Entries.WF t := (List.nodup_cons.mp h).2
    have hnot : e.1 ∉ t.map Prod.fst := (List.nodup_cons.mp h).1
    have ih := ih ht
    by_cases hk : e.1 = k
    · have hmem : (k, v) ∉ t := fun hm => hnot (hk ▸ List.mem_map_of_mem Prod.fst hm)
      obtain ⟨a, b⟩ := e
      simp only at hk
      subst hk
      simp [Entries.get, List.find?_cons, hmem]
      exact eq_comm
    · have hne : (k, v) ≠ e := fun he => hk (by rw [← he])
      simp only [Entries.get] at ih
      simp [Entries.get, List.find?_cons, hk, ih, hne]

/-- Copying the entries of a map with distinct keys one by one, as the loop
of `HGetAll` does, yields those entries in reverse order of visit. -/
theorem Entries.foldl_set (es acc : Entries) (h : es.WF)
    (hd : ∀ e ∈ es, e.1 ∉ acc.map Prod.fst) :
    es.foldl (fun mp e => Entries.set mp e.1 e.2) acc = es.reverse ++ acc := by
  induction es generalizing acc with
  | nil => simp
  | cons e t ih =>
    have ht : Entries.WF t := (List.nodup_cons.mp h).2
    have hnot : e.1 ∉ t.map Prod.fst := (List.nodup_cons.mp h).1
    have hset : Entries.set acc e.1 e.2 = e :: acc := by
      have hf : acc.filter (fun x => decide (x.1 ≠ e.1)) = acc := by
        rw [List.filter_eq_self]
        intro x hx
        have : x.1 ≠ e.1 := fun hxe =>
          hd e (List.mem_cons_self _ _) (hxe ▸ List.mem_map_of_mem Prod.fst hx)
        simpa using this
      show (e.1, e.2) :: acc.filter (fun x => decide (x.1 ≠ e.1)) = e :: acc
      rw [hf]
    rw [List.foldl_cons, hset, ih (e :: acc) ht]
    · simp
    · intro x hx
      simp only [List.map_cons, List.mem_cons, not_or]
      refine ⟨?_, hd x (List.mem_cons_of_mem _ hx)⟩
      intro hxe
      exact hnot (hxe ▸ List.mem_map_of_mem Prod.fst hx)

/-- C4: on `redis.Nil` from the wrapped client, `HGet` returns `("", nil)` and
`HGetAll` returns an allocated empty map with a nil error. Whatever the client
replies, the map `HGetAll` returns is allocated (never the nil map) and holds
exactly the entries the client returned: the same pairs, and the same value
under every field. -/
theorem HGet_HGetAll_not_found (r : RedisClient ν σ) (key field : String) (s : σ) :
    ((r.Client.HGet (r.Prefix ++ key) field s).1 = .failed .Nil →
      (r.HGet key field s).1 = ("", none)) ∧
    ((r.Client.HGetAll (r.Prefix ++ key) s).1 = .failed .Nil →
      (r.HGetAll key s).1 = (some [], none)) ∧
    ∃ mp : Entries, (r.HGetAll key s).1.1 = some mp ∧
      ((GoMap.range (r.Client.HGetAll (r.Prefix ++ key) s).1.Val).WF →
        mp.Perm (GoMap.range (r.Client.HGetAll (r.Prefix ++ key) s).1.Val) ∧
        mp.WF ∧
        ∀ k, mp.get k = GoMap.get (r.Client.HGetAll (r.Prefix ++ key) s).1.Val k) := by
  refine ⟨?_, ?_, ?_⟩
  · intro h
    simp [RedisClient.HGet, h, Cmd.Result, Cmd.Err]
  · intro h
    simp [RedisClient.HGetAll, h, Cmd.Result, Cmd.Err]
  · generalize hc : (r.Client.HGetAll (r.Prefix ++ key) s).1 = reply
    have hperm : ∀ es : Entries, es.WF →
        (es.foldl (fun mp e => Entries.set mp e.1 e.2) []).Perm es ∧
        Entries.WF (es.foldl (fun mp e => Entries.set mp e.1 e.2) []) ∧
        ∀ k, Entries.get (es.foldl (fun mp e => Entries.set mp e.1 e.2) []) k = Entries.get es k := by
      intro es hes
      have hrev := Entries.foldl_set es [] hes (by simp)
      rw [List.append_nil] at hrev
      have hp : (es.foldl (fun mp e => Entries.set mp e.1 e.2) []).Perm es := by
        rw [hrev]
        exact List.reverse_perm es
      have hwf : Entries.WF (es.foldl (fun mp e => Entries.set mp e.1 e.2) []) :=
        ((hp.map Prod.fst).nodup_iff).mpr hes
      refine ⟨hp, hwf, fun k => ?_⟩
      apply Option.ext
      intro v
      simp only [Option.mem_def]
      rw [Entries.get_eq_some_iff _ hwf, Entries.get_eq_some_iff _ hes]
      exact hp.mem_iff
    cases reply with
    | ok v =>
      refine ⟨(GoMap.range v).foldl (fun mp e => Entries.set mp e.1 e.2) [], ?_, ?_⟩
      · simp [RedisClient.HGetAll, hc, Cmd.Result, Cmd.Err, Cmd.Val]
      · intro hwf
        exact hperm _ hwf
    | failed e =>
      refine ⟨[], ?_, ?_⟩
      · simp only [RedisClient.HGetAll, hc, Cmd.Result, Cmd.Err, Cmd.Val]
        split <;> simp [GoMap.range, GoZero.zero]
      · intro _
        simp [Cmd.Val, GoZero.zero, GoMap.range, GoMap.get, Entries.WF]

/-- C4, at a concrete input: a client answering `redis.Nil` to both hash
reads, and the reference server holding a hash of two fields. -/
theorem HGet_HGetAll_not_found_witness :
    ((⟨fixed { HGet := .failed .Nil, HGetAll := .failed .Nil }, "app:"⟩ :
        RedisClient String Unit).HGet "h" "f" ()).1 = ("", none) ∧
    ((⟨fixed { HGet := .failed .Nil, HGetAll := .failed .Nil }, "app:"⟩ :
        RedisClient String Unit).HGetAll "h" ()).1 = (some [], none) ∧
    ∃ mp : Entries,
      ((kvFacade true "app:").HGetAll "h"
          [("app:h", ⟨.hash [("a", "1"), ("b", "2")], none⟩)]).1.1 = some mp ∧
      mp.Perm [("a", "1"), ("b", "2")] :=
  ⟨(HGet_HGetAll_not_found
      ⟨fixed { HGet := .failed .Nil, HGetAll := .failed .Nil }, "app:"⟩ "h" "f" ()).1 rfl,
    (HGet_HGetAll_not_found
      ⟨fixed { HGet := .failed .Nil, HGetAll := .failed .Nil }, "app:"⟩ "h" "f" ()).2.1 rfl,
    (HGet_HGetAll_not_found (kvFacade true "app:") "h" "f"
      [("app:h", ⟨.hash [("a", "1"), ("b", "2")], none⟩)]).2.2.imp
      (fun _ h => ⟨h.1, (h.2 (by decide)).1⟩)⟩

/-! ## The reference server: keyspace lemmas -/

theorem Store.get_set_self (s : Store) (key : String) (slot : Slot) :
    Store.get (Store.set s key slot) key = some slot := by
  simp [Store.get, Store.set]

theorem Store.get_del_self (s : Store) (key : String) :
    Store.get (Store.del s key) key = none := by
  simp [Store.get, Store.del, List.find?_eq_none]

/-- Filtering a list does not change the first element satisfying `p` when
every element satisfying `p` passes the filter. -/
theorem find?_filter_of_imp {α : Type} (p q : α → Bool) (l : List α)
    (h : ∀ x, p x = true → q x = true) : (l.filter q).find? p = l.find? p := by
  induction l with
  | nil => rfl
  | cons a t ih =>
    by_cases hq : q a = true
    · rw [List.filter_cons_of_pos hq]
      simp only [List.find?_cons, ih]
    · rw [List.filter_cons_of_neg hq]
      have hp : p a = false := by
        cases hpa : p a
        · rfl
        · exact absurd (h a hpa) hq
      simp only [List.find?_cons, hp, ih]

theorem Store.get_del_ne (s : Store) (key key' : String) (h : key' ≠ key) :
    Store.get (Store.del s key) key' = Store.get s key' := by
  unfold Store.get Store.del
  rw [find?_filter_of_imp]
  intro x hx
  have hx' : x.1 = key' := by simpa using hx
  have : x.1 ≠ key := fun hk => h (hx'.symm.trans hk)
  simpa using this

theorem Store.get_set_ne (s : Store) (key key' : String) (slot : Slot) (h : key' ≠ key) :
    Store.get (Store.set s key slot) key' = Store.get s key' := by
  have hne : ¬ key = key' := fun h' => h h'.symm
  have := Store.get_del_ne s key key' h
  simp only [Store.get] at this
  simp [Store.get, Store.set, List.find?_cons, hne, this]

theorem Store.delKeys_singleton (s : Store) (key : String) :
    (Store.delKeys [key] s).2 = Store.del s key := by
  simp [Store.delKeys]

/-- Two namespaces that differ give different physical keys to the same
logical key. -/
theorem append_key_ne (p1 p2 k : String) (h : p1 ≠ p2) : p1 ++ k ≠ p2 ++ k := by
  intro heq
  apply h
  have hd : (p1 ++ k).data = (p2 ++ k).data := by rw [heq]
  rw [String.data_append, String.data_append] at hd
  exact String.ext (List.append_cancel_right hd)

/-! ## Namespaces over a shared server -/

/-- C2: two facades over the same server whose namespaces differ map any
logical key to different physical keys; over the reference server, a `Set` or
a `Del` of that key through the first facade leaves what `Get` of the key
returns through the second facade unchanged. -/
theorem namespaces_do_not_interfere (p1 p2 k : String) (h : p1 ≠ p2) :
    (kvFacade true p1).Prefix ++ k ≠ (kvFacade true p2).Prefix ++ k ∧
    ∀ (gc : Bool) (RedisTTL : Duration) (v : String) (ds : List Duration) (s : Store),
      ((kvFacade gc p2).Get k ((kvFacade gc p1).Set RedisTTL k v ds s).2).1
        = ((kvFacade gc p2).Get k s).1 ∧
      ((kvFacade gc p2).Get k ((kvFacade gc p1).Del [k] s).2).1
        = ((kvFacade gc p2).Get k s).1 := by
  have hne : p2 ++ k ≠ p1 ++ k := append_key_ne p2 p1 k (Ne.symm h)
  refine ⟨append_key_ne p1 p2 k h, ?_⟩
  intro gc RedisTTL v ds s
  constructor
  · simp only [RedisClient.Get, RedisClient.Set, kvFacade, kv]
    rw [Store.get_set_ne _ _ _ _ hne]
    cases Store.get s (p2 ++ k) with
    | none => rfl
    | some slot => obtain ⟨val, ttl⟩ := slot; cases val <;> rfl
  · simp only [RedisClient.Get, RedisClient.Del, kvFacade, kv, List.map]
    rw [if_neg (by simp), Store.delKeys_singleton, Store.get_del_ne _ _ _ hne]
    cases Store.get s (p2 ++ k) with
    | none => rfl
    | some slot => obtain ⟨val, ttl⟩ := slot; cases val <;> rfl

/-- C2, at a concrete input: the namespaces `a:` and `b:` over a server on
which `b:k` holds a value. -/
theorem namespaces_do_not_interfere_witness :
    ((kvFacade true "b:").Get "k"
        ((kvFacade true "a:").Set 86400 "k" "new" [] [("b:k", ⟨.str "old", none⟩)]).2).1
      = ("old", none) ∧
    ((kvFacade true "b:").Get "k"
        ((kvFacade true "a:").Del ["k"] [("b:k", ⟨.str "old", none⟩)]).2).1
      = ("old", none) :=
  ⟨((namespaces_do_not_interfere "a:" "b:" "k" (by decide)).2 true 86400 "new" []
      [("b:k", ⟨.str "old", none⟩)]).1.trans rfl,
    ((namespaces_do_not_interfere "a:" "b:" "k" (by decide)).2 true 86400 "new" []
      [("b:k", ⟨.str "old", none⟩)]).2.trans rfl⟩

/-! ## Round trip -/

/-- C9: over the reference server, where no expiration elapses, `Set` of a
string value succeeds and a following `Get` of the same key through the same
facade returns exactly that value with a nil error. -/
theorem Set_then_Get (gc : Bool) (RedisTTL : Duration) (p k v : String) (ds : List Duration)
    (s : Store) :
    ((kvFacade gc p).Set RedisTTL k v ds s).1 = none ∧
    ((kvFacade gc p).Get k ((kvFacade gc p).Set RedisTTL k v ds s).2).1 = (v, none) := by
  constructor
  · simp [RedisClient.Set, kvFacade, kv, Cmd.Err]
  · simp only [RedisClient.Get, RedisClient.Set, kvFacade, kv]
    rw [Store.get_set_self]
    rfl

/-! ## HDel: cleanup of emptied hashes -/

/-- `HDel` when both the field delete and the length check succeed and the
length is zero: the outcome is that of the cleanup `Del`. -/
theorem RedisClient.HDel_of_zero (r : RedisClient ν σ) (key : String) (field : List String)
    (s : σ) (n : Int) (h : (r.Client.HDel (r.Prefix ++ key) field s).1 = .ok n)
    (h' : (r.Client.HLen (r.Prefix ++ key) (r.Client.HDel (r.Prefix ++ key) field s).2).1
      = .ok 0) :
    r.HDel key field s
      = ((r.Client.Del [r.Prefix ++ key]
            (r.Client.HLen (r.Prefix ++ key)
              (r.Client.HDel (r.Prefix ++ key) field s).2).2).1.Err,
          (r.Client.Del [r.Prefix ++ key]
            (r.Client.HLen (r.Prefix ++ key)
              (r.Client.HDel (r.Prefix ++ key) field s).2).2).2) := by
  simp only [RedisClient.HDel, RedisClient.Del, h, h', Cmd.Err, Cmd.Result, Cmd.Val, List.map]
  cases (r.Client.Del [r.Prefix ++ key]
    (r.Client.HLen (r.Prefix ++ key) (r.Client.HDel (r.Prefix ++ key) field s).2).2).1 <;> simp

/-- `HDel` when both the field delete and the length check succeed and the
length is not zero: nil, and the server as the length check left it. -/
theorem RedisClient.HDel_of_pos (r : RedisClient ν σ) (key : String) (field : List String)
    (s : σ) (n m : Int) (h : (r.Client.HDel (r.Prefix ++ key) field s).1 = .ok n)
    (h' : (r.Client.HLen (r.Prefix ++ key) (r.Client.HDel (r.Prefix ++ key) field s).2).1
      = .ok m) (hm : m ≠ 0) :
    r.HDel key field s
      = (none, (r.Client.HLen (r.Prefix ++ key)
          (r.Client.HDel (r.Prefix ++ key) field s).2).2) := by
  simp [RedisClient.HDel, h, h', hm, Cmd.Err, Cmd.Result, Cmd.Val]

/-- The reference server's `HLen` never changes the keyspace. -/
theorem kv_HLen_state (gc : Bool) (key : String) (s : Store) : ((kv gc).HLen key s).2 = s := by
  simp only [kv]
  split <;> rfl

/-- The reference server's reply to `HLen` is the number of fields of the hash,
unless the key holds a string. -/
theorem kv_HLen_reply (gc : Bool) (key : String) (s : Store)
    (h : ∀ v ttl, Store.get s key ≠ some ⟨.str v, ttl⟩) :
    ((kv gc).HLen key s).1 = .ok ((Store.fields s key).length : Int) := by
  simp only [kv, Store.fields]
  split
  · rename_i hg; simp [hg]
  · rename_i v ttl hg; exact absurd hg (h v ttl)
  · rename_i es ttl hg; simp [hg]

/-- The reference server's single-key `Del` succeeds and removes the key. -/
theorem kv_Del_single (gc : Bool) (key : String) (s : Store) :
    ((kv gc).Del [key] s).1.Err = none ∧ ((kv gc).Del [key] s).2 = Store.del s key := by
  simp [kv, Cmd.Err, Store.delKeys]

/-- The reference server's `HGetAll` of an absent key is an empty map. -/
theorem kv_HGetAll_absent (gc : Bool) (key : String) (s : Store) (h : Store.get s key = none) :
    ((kv gc).HGetAll key s).1 = .ok (some []) := by
  simp [kv, h]

/-- The reference server's successful `HDel`: the key does not hold a string
afterwards, and its fields are the former ones minus the named ones; the slot
keeps its time-to-live when it stays. -/
theorem kv_HDel_ok (gc : Bool) (key : String) (field : List String) (s : Store)
    (h : ((kv gc).HDel key field s).1.Err = none) :
    (∃ n, ((kv gc).HDel key field s).1 = .ok n) ∧
    (∀ v ttl, Store.get ((kv gc).HDel key field s).2 key ≠ some ⟨.str v, ttl⟩) ∧
    Store.fields ((kv gc).HDel key field s).2 key
      = (Store.fields s key).filter (fun e => e.1 ∉ field) ∧
    (Store.fields ((kv gc).HDel key field s).2 key ≠ [] →
      ∃ ttl, Store.get ((kv gc).HDel key field s).2 key
        = some ⟨.hash ((Store.fields s key).filter (fun e => e.1 ∉ field)), ttl⟩) := by
  by_cases hf : field = []
  · simp [kv, hf, Cmd.Err] at h
  · rcases hg : Store.get s key with _ | ⟨val, ttl⟩
    · have hD : (kv gc).HDel key field s = (.ok 0, s) := by simp [kv, hf, hg]
      rw [hD]
      simp [Store.fields, hg]
    · cases val with
      | str v => simp [kv, hf, hg, Cmd.Err, wrongType] at h
      | hash es =>
        by_cases hc : gc = true ∧ es.filter (fun e => e.1 ∉ field) = []
        · have hD : (kv gc).HDel key field s
              = (.ok ((es.length : Int) - ((es.filter (fun e => e.1 ∉ field)).length : Int)),
                  Store.del s key) := by
            simp only [kv, hf, hg, if_false]
            rw [if_pos hc]
          rw [hD]
          simp only [Store.fields, hg, Store.get_del_self, hc.2]
          simp
        · have hD : (kv gc).HDel key field s
              = (.ok ((es.length : Int) - ((es.filter (fun e => e.1 ∉ field)).length : Int)),
                  Store.set s key ⟨.hash (es.filter (fun e => e.1 ∉ field)), ttl⟩) := by
            simp only [kv, hf, hg, if_false]
            rw [if_neg hc]
          rw [hD]
          simp [Store.fields, hg, Store.get_set_self]

/-- C8: over the reference server, when the field delete succeeds the length
check succeeds too, and the hash then has the fields it had before minus the
named ones. `HDel` issues the cleanup `Del` on the prefixed key exactly when
no field is left. When fields are left, `HDel` returns nil and leaves the
server as the field delete left it, the key holding the remaining fields.
When none is left, `HDel` returns nil, the physical key no longer exists and
`HGetAll` of the key returns an empty map with a nil error. -/
theorem HDel_cleanup (gc : Bool) (p key : String) (field : List String) (s : Store)
    (h : ((kv gc).HDel (p ++ key) field s).1.Err = none) :
    ((kv gc).HLen (p ++ key) ((kv gc).HDel (p ++ key) field s).2).1.Err = none ∧
    Store.fields ((kv gc).HDel (p ++ key) field s).2 (p ++ key)
      = (Store.fields s (p ++ key)).filter (fun e => e.1 ∉ field) ∧
    (Call.Del [p ++ key] ∈ ((kvFacade gc p).traced.HDel key field (s, [])).2.2 ↔
      Store.fields ((kv gc).HDel (p ++ key) field s).2 (p ++ key) = []) ∧
    (Store.fields ((kv gc).HDel (p ++ key) field s).2 (p ++ key) ≠ [] →
      (kvFacade gc p).HDel key field s = (none, ((kv gc).HDel (p ++ key) field s).2) ∧
      ∃ ttl, Store.get ((kvFacade gc p).HDel key field s).2 (p ++ key)
        = some ⟨.hash ((Store.fields s (p ++ key)).filter (fun e => e.1 ∉ field)), ttl⟩) ∧
    (Store.fields ((kv gc).HDel (p ++ key) field s).2 (p ++ key) = [] →
      ((kvFacade gc p).HDel key field s).1 = none ∧
      Store.get ((kvFacade gc p).HDel key field s).2 (p ++ key) = none ∧
      ((kvFacade gc p).HGetAll key ((kvFacade gc p).HDel key field s).2).1
        = (some [], none)) := by
  obtain ⟨⟨n, hn⟩, hstr, hfields, hrest⟩ := kv_HDel_ok gc (p ++ key) field s h
  have hlen := kv_HLen_reply gc (p ++ key) _ hstr
  have hst := kv_HLen_state gc (p ++ key) ((kv gc).HDel (p ++ key) field s).2
  refine ⟨by rw [hlen]; rfl, hfields, ?_, ?_, ?_⟩
  · by_cases he : Store.fields ((kv gc).HDel (p ++ key) field s).2 (p ++ key) = []
    · have hlen0 : ((kv gc).HLen (p ++ key) ((kv gc).HDel (p ++ key) field s).2).1 = .ok 0 := by
        rw [hlen, he]; rfl
      have hE := RedisClient.HDel_of_zero (kvFacade gc p).traced key field (s, []) n hn hlen0
      rw [hE]
      simp [RedisClient.traced, Client.traced, kvFacade, he]
    · have hm : ((Store.fields ((kv gc).HDel (p ++ key) field s).2 (p ++ key)).length : Int)
          ≠ 0 := by
        simpa using he
      have hE := RedisClient.HDel_of_pos (kvFacade gc p).traced key field (s, []) n _ hn hlen hm
      rw [hE]
      simp [RedisClient.traced, Client.traced, kvFacade, he]
  · intro hne
    have hm : ((Store.fields ((kv gc).HDel (p ++ key) field s).2 (p ++ key)).length : Int) ≠ 0 := by
      simpa using hne
    have hE := RedisClient.HDel_of_pos (kvFacade gc p) key field s n _ hn hlen hm
    rw [hE]
    exact ⟨by rw [← hst]; rfl, by rw [show ((kvFacade gc p).Client.HLen ((kvFacade gc p).Prefix ++ key) ((kvFacade gc p).Client.HDel ((kvFacade gc p).Prefix ++ key) field s).2).2 = ((kv gc).HDel (p ++ key) field s).2 from hst]; exact hrest hne⟩
  · intro he
    have hlen0 : ((kv gc).HLen (p ++ key) ((kv gc).HDel (p ++ key) field s).2).1 = .ok 0 := by
      rw [hlen, he]; rfl
    have hE := RedisClient.HDel_of_zero (kvFacade gc p) key field s n hn hlen0
    have hdel := kv_Del_single gc (p ++ key)
      ((kv gc).HLen (p ++ key) ((kv gc).HDel (p ++ key) field s).2).2
    have hfinal : ((kvFacade gc p).HDel key field s).2
        = Store.del ((kv gc).HDel (p ++ key) field s).2 (p ++ key) := by
      rw [hE, ← hst]
      exact hdel.2.trans (by rw [hst])
    refine ⟨by rw [hE]; exact hdel.1, by rw [hfinal]; exact Store.get_del_self _ _, ?_⟩
    rw [hfinal]
    have := kv_HGetAll_absent gc (p ++ key) _ (Store.get_del_self ((kv gc).HDel (p ++ key) field s).2 (p ++ key))
    simp only [RedisClient.HGetAll, kvFacade, this, Cmd.Result, Cmd.Err, Cmd.Val]
    simp [GoMap.range]

/-- C8, at a concrete input: a server that keeps emptied hashes, holding a
hash with the single field `a`. Deleting `a` succeeds, the cleanup `Del` is
issued, and afterwards the key is gone and `HGetAll` returns an empty map. -/
theorem HDel_cleanup_witness :
    ((kv false).HDel ("app:" ++ "h") ["a"] [("app:h", ⟨.hash [("a", "1")], some 60⟩)]).1.Err
      = none ∧
    Call.Del ["app:" ++ "h"] ∈ ((kvFacade false "app:").traced.HDel "h" ["a"]
        ([("app:h", ⟨.hash [("a", "1")], some 60⟩)], [])).2.2 ∧
    Store.get ((kvFacade false "app:").HDel "h" ["a"]
        [("app:h", ⟨.hash [("a", "1")], some 60⟩)]).2 ("app:" ++ "h") = none ∧
    ((kvFacade false "app:").HGetAll "h" ((kvFacade false "app:").HDel "h" ["a"]
        [("app:h", ⟨.hash [("a", "1")], some 60⟩)]).2).1 = (some [], none) :=
  ⟨by decide,
    (HDel_cleanup false "app:" "h" ["a"] [("app:h", ⟨.hash [("a", "1")], some 60⟩)]
      (by decide)).2.2.1.mpr (by decide),
    ((HDel_cleanup false "app:" "h" ["a"] [("app:h", ⟨.hash [("a", "1")], some 60⟩)]
      (by decide)).2.2.2.2 (by decide)).2.1,
    ((HDel_cleanup false "app:" "h" ["a"] [("app:h", ⟨.hash [("a", "1")], some 60⟩)]
      (by decide)).2.2.2.2 (by decide)).2.2⟩

end redis
